import Mathlib

/-!
Verification of the alert feed synchronizer in src/AlertViewer.tsx.

The component state and the three stateful operations (fetchAlerts,
resolveAlert, the periodic counter tick) are embedded as pure Lean
functions.  Asynchronous network calls are modelled by outcome
parameters: an operation is split into its synchronous start phase
(guard checks and the setLoading / setError writes that happen before
the await) and its completion phase (a function of the state at
resumption time and of the outcome of the network call).  JavaScript
numbers produced by parseInt and Math.max are modelled by JSNum,
which is an integer or NaN; Array.prototype.sort is modelled by a
stable insertion sort whose comparator treats a NaN comparison value
as zero, exactly as the ECMAScript SortCompare specification does.
UI-only state (enlargedImageId, showPasswordModal, the hasFetched
ref) is omitted: no claim mentions it.
-/

namespace AlertViewer

/-- The Alert record shape, from the interface at the top of AlertViewer.tsx. -/
structure Alert where
  fileId : String
  sasUrl : String
  alert : String
  timestamp : String
deriving DecidableEq, Repr

/-- A JavaScript number as produced by parseInt and Math.max here:
an integer value or NaN. -/
inductive JSNum where
  | num (v : Int)
  | nan
deriving DecidableEq, Repr

/-- Accumulate the maximal leading run of decimal digits, as parseInt does. -/
def digitsToNat : List Char → Nat → Nat
  | c :: cs, acc => if c.isDigit then digitsToNat cs (10 * acc + (c.toNat - 48)) else acc
  | [], acc => acc

/-- Parse a digit run, NaN when the first character is not a digit. -/
def jsParseIntCore (cs : List Char) : JSNum :=
  match cs with
  | c :: _ => if c.isDigit then .num (digitsToNat cs 0 : Nat) else .nan
  | [] => .nan

/-- Model of the JavaScript parseInt applied to the decimal strings this
component handles: an optional sign followed by a maximal digit run;
NaN when no leading digit exists. -/
def jsParseInt (s : String) : JSNum :=
  match s.data with
  | '-' :: cs =>
    match jsParseIntCore cs with
    | .num v => .num (-v)
    | .nan => .nan
  | '+' :: cs => jsParseIntCore cs
  | cs => jsParseIntCore cs

/-- Math.max on two values: NaN absorbs, otherwise the larger value. -/
def jsMax : JSNum → JSNum → JSNum
  | .num a, .num b => .num (max a b)
  | _, _ => .nan

/-- Math.max spread over a list.  In fetchAlerts it is only reached under
the data.length > 0 guard, so the empty case (really -Infinity) is
given as NaN and never used. -/
def jsMaxList : List JSNum → JSNum
  | [] => .nan
  | x :: xs => xs.foldl jsMax x

/-- Number.prototype.toString for the values appearing here. -/
def jsNumToString : JSNum → String
  | .num v => toString v
  | .nan => "NaN"

/-- The comparator of sortAlerts (line 24): parseInt(b.fileId) - parseInt(a.fileId),
with a NaN comparison value read as zero, as the ECMAScript sort does. -/
def jsCompare (a b : Alert) : Int :=
  match jsParseInt b.fileId, jsParseInt a.fileId with
  | .num pb, .num pa => pb - pa
  | _, _ => 0

/-- Stable insertion step: place the element before the first list entry
it need not follow under the comparator. -/
def orderedInsert (a : Alert) : List Alert → List Alert
  | [] => [a]
  | b :: l => if jsCompare a b ≤ 0 then a :: b :: l else b :: orderedInsert a l

/-- Model of sortAlerts (lines 23-25): Array.prototype.sort with the
descending parseInt comparator.  The ECMAScript specification requires a
stable sort, so a stable insertion sort is a faithful model. -/
def sortAlerts : List Alert → List Alert
  | [] => []
  | a :: l => orderedInsert a (sortAlerts l)

/-- The integer key of an alert, used to state ordering properties; zero
stands in for NaN and is only relied on when the id is known to parse. -/
def keyOf (a : Alert) : Int :=
  match jsParseInt a.fileId with
  | .num v => v
  | .nan => 0

/-- The merge executed inside setAlerts on a successful non-empty page
(lines 51-55): filter the incoming records whose fileId is already
present, append, and re-sort. -/
def mergeAlerts (prev data : List Alert) : List Alert :=
  sortAlerts (prev ++ data.filter fun a => !((prev.map fun x => x.fileId).contains a.fileId))

/-- The removal executed inside setAlerts on a successful resolve
(line 116): drop the records with the given fileId and re-sort. -/
def removeAlerts (l : List Alert) (fid : String) : List Alert :=
  sortAlerts (l.filter fun a => a.fileId != fid)

/-- The component state relevant to the synchronization logic. -/
structure ViewerState where
  alerts : List Alert
  loading : Bool
  error : Option String
  lastCutoffId : String
  counter : Int
  apiKey : Option String
deriving DecidableEq, Repr

/-- The error message published when fetchAlerts fails (line 60). -/
def fetchFailureMessage : String := "Failed to fetch alerts. Please try again later."

/-- The error message published when resolveAlert fails (line 119). -/
def resolveFailureMessage : String := "Failed to resolve alert. Please try again."

/-- Outcome of the page request: a parsed data array, or any transport,
HTTP status or JSON shape failure (all of which throw inside the try
block and land in the catch). -/
inductive FetchOutcome where
  | success (data : List Alert)
  | failure
deriving DecidableEq, Repr

/-- The synchronous prefix of fetchAlerts (lines 27-30): the single-flight
and credential guard, then setLoading(true) and setError(null).  The
Boolean result records whether a network request was issued. -/
def fetchAlertsStart (s : ViewerState) : ViewerState × Bool :=
  if s.loading || s.apiKey.isNone then (s, false)
  else ({ s with loading := true, error := none }, true)

/-- The completion of fetchAlerts (lines 40-64): on success with a
non-empty page, merge, re-sort and advance the cutoff to the page
maximum; on an empty page, change nothing; on failure, publish the
error; in every case release the loading guard (the finally block). -/
def fetchAlertsComplete (s : ViewerState) (o : FetchOutcome) : ViewerState :=
  match o with
  | .failure => { s with error := some fetchFailureMessage, loading := false }
  | .success data =>
    if 0 < data.length then
      { s with
        alerts := mergeAlerts s.alerts data,
        lastCutoffId := jsNumToString (jsMaxList (data.map fun a => jsParseInt a.fileId)),
        loading := false }
    else { s with loading := false }

/-- Outcome of the resolve request. -/
inductive ResolveOutcome where
  | success
  | failure
deriving DecidableEq, Repr

/-- resolveAlert (lines 101-121): a credential guard, then on success the
removal re-sort, on failure a published error; no loading guard and no
cutoff interaction. -/
def resolveAlert (s : ViewerState) (fid : String) (o : ResolveOutcome) : ViewerState :=
  if s.apiKey.isNone then s
  else
    match o with
    | .success => { s with alerts := removeAlerts s.alerts fid }
    | .failure => { s with error := some resolveFailureMessage }

/-- One row of the counter response body. -/
structure CounterRow where
  rowKey : String
  count : Int
deriving DecidableEq, Repr

/-- Outcome of the counter request: the data array of rows, or any
transport, HTTP status or JSON failure. -/
inductive CounterOutcome where
  | success (rows : List CounterRow)
  | failure
deriving DecidableEq, Repr

/-- The fixed period of the counter poll interval (line 96). -/
def counterPollPeriodMs : Nat := 2000

/-- One tick of the counter poll (lines 77-95): skip without a credential;
on success take the first row keyed unique_counter and publish its count;
a missing row makes the [0].count access throw, which like every other
failure is only logged, leaving the state untouched. -/
def counterTick (s : ViewerState) (o : CounterOutcome) : ViewerState :=
  if s.apiKey.isNone then s
  else
    match o with
    | .failure => s
    | .success rows =>
      match (rows.filter fun r => r.rowKey == "unique_counter").head? with
      | some row => { s with counter := row.count }
      | none => s

/-- Iterate the merge completion of fetchAlerts over a sequence of
successfully fetched pages. -/
def runFetches : ViewerState → List (List Alert) → ViewerState
  | s, [] => s
  | s, d :: ds => runFetches (fetchAlertsComplete s (.success d)) ds

/-- A concrete alert with a given id, for concrete evaluations. -/
def mkAlert (fid : String) : Alert :=
  { fileId := fid, sasUrl := "u", alert := "a", timestamp := "t" }

/-- The initial component state once a credential has been entered:
empty collection, cutoff "0", guard down, no error. -/
def state0 : ViewerState :=
  { alerts := [], loading := false, error := none,
    lastCutoffId := "0", counter := 0, apiKey := some "key" }

/-! ### Facts about the sort comparator -/

lemma jsCompare_swap (a b : Alert) : jsCompare b a = - jsCompare a b := by
  unfold jsCompare
  cases jsParseInt a.fileId <;> cases jsParseInt b.fileId <;> simp

lemma jsCompare_pos (x b : Alert) (h : ¬ jsCompare x b ≤ 0) :
    ∃ kx kb : Int, jsParseInt x.fileId = JSNum.num kx ∧ jsParseInt b.fileId = JSNum.num kb ∧
      kx < kb ∧ jsCompare x b = kb - kx := by
  unfold jsCompare at h ⊢
  cases hx : jsParseInt x.fileId <;> cases hb : jsParseInt b.fileId <;>
      simp [hx, hb] at h ⊢
  omega

/-- Two insertions of strictly comparable elements commute. -/
lemma orderedInsert_comm (x b : Alert) (h : ¬ jsCompare x b ≤ 0) :
    ∀ C : List Alert, orderedInsert b (orderedInsert x C) = orderedInsert x (orderedInsert b C) := by
  obtain ⟨kx, kb, hkx, hkb, hlt, _⟩ := jsCompare_pos x b h
  have hbx : jsCompare b x ≤ 0 := by
    rw [jsCompare_swap]; omega
  intro C
  induction C with
  | nil =>
    simp only [orderedInsert, if_pos hbx, if_neg h]
  | cons c C ih =>
    by_cases hxc : jsCompare x c ≤ 0 <;> by_cases hbc : jsCompare b c ≤ 0
    · simp only [orderedInsert, if_pos hxc, if_pos hbc, if_pos hbx, if_neg h, if_pos hxc]
    · exfalso
      obtain ⟨kb2, kc, hkb2, hkc, hlt2, _⟩ := jsCompare_pos b c hbc
      rw [hkb] at hkb2
      have hkb2' : kb2 = kb := by
        cases hkb2; rfl
      have : jsCompare x c = kc - kx := by
        unfold jsCompare
        rw [hkx, hkc]
      omega
    · simp only [orderedInsert, if_neg hxc, if_pos hbc, if_neg h, if_neg hxc]
    · simp only [orderedInsert, if_neg hxc, if_neg hbc, if_neg h, if_neg hxc, ih]

/-- Inserting before sorting the rest equals inserting after: the insert
commutes through a fold of inserts. -/
lemma foldr_orderedInsert (x : Alert) (A : List Alert) :
    ∀ M : List Alert,
      (orderedInsert x M).foldr orderedInsert A = orderedInsert x (M.foldr orderedInsert A) := by
  intro M
  induction M with
  | nil => rfl
  | cons b M ih =>
    by_cases hxb : jsCompare x b ≤ 0
    · simp only [orderedInsert, if_pos hxb, List.foldr_cons]
    · simp only [orderedInsert, if_neg hxb, List.foldr_cons, ih,
        orderedInsert_comm x b hxb]

/-- Folding inserts over an already insertion-sorted list gives the same
result as folding them over the original list. -/
lemma foldr_orderedInsert_sortAlerts (A : List Alert) :
    ∀ q : List Alert, (sortAlerts q).foldr orderedInsert A = q.foldr orderedInsert A := by
  intro q
  induction q with
  | nil => rfl
  | cons x q ih =>
    show (orderedInsert x (sortAlerts q)).foldr orderedInsert A = _
    rw [foldr_orderedInsert, ih]
    rfl

lemma sortAlerts_append (u v : List Alert) :
    sortAlerts (u ++ v) = u.foldr orderedInsert (sortAlerts v) := by
  induction u with
  | nil => rfl
  | cons x u ih =>
    show orderedInsert x (sortAlerts (u ++ v)) = _
    rw [ih]
    rfl

/-- Pre-sorting a prefix does not change the final sort. -/
lemma sortAlerts_sorted_append (q k : List Alert) :
    sortAlerts (sortAlerts q ++ k) = sortAlerts (q ++ k) := by
  rw [sortAlerts_append, sortAlerts_append, foldr_orderedInsert_sortAlerts]

lemma filter_orderedInsert_neg (p : Alert → Bool) (x : Alert) (hx : p x = false) :
    ∀ M : List Alert, (orderedInsert x M).filter p = M.filter p := by
  intro M
  induction M with
  | nil => simp [orderedInsert, hx]
  | cons b M ih =>
    by_cases hxb : jsCompare x b ≤ 0
    · simp [orderedInsert, if_pos hxb, List.filter_cons, hx]
    · by_cases hb : p b <;>
        simp [orderedInsert, if_neg hxb, List.filter_cons, hb, ih]

lemma sortAlerts_filter_orderedInsert (p : Alert → Bool) (x : Alert) (hx : p x = true) :
    ∀ M : List Alert,
      sortAlerts ((orderedInsert x M).filter p) = orderedInsert x (sortAlerts (M.filter p)) := by
  intro M
  induction M with
  | nil => simp [orderedInsert, hx, sortAlerts]
  | cons b M ih =>
    by_cases hxb : jsCompare x b ≤ 0
    · simp only [orderedInsert, if_pos hxb, List.filter_cons, hx, if_pos]
      rfl
    · by_cases hb : p b
      · simp only [orderedInsert, if_neg hxb, List.filter_cons, hb, if_pos]
        show orderedInsert b (sortAlerts ((orderedInsert x M).filter p)) = _
        rw [ih, orderedInsert_comm x b hxb]
        rfl
      · simp only [orderedInsert, if_neg hxb, List.filter_cons, hb]
        simpa [List.filter_cons, hb] using ih

/-- Pre-sorting before a filter does not change the final sort. -/
lemma sortAlerts_filter_sortAlerts (p : Alert → Bool) :
    ∀ m : List Alert, sortAlerts ((sortAlerts m).filter p) = sortAlerts (m.filter p) := by
  intro m
  induction m with
  | nil => rfl
  | cons x m ih =>
    by_cases hx : p x
    · show sortAlerts ((orderedInsert x (sortAlerts m)).filter p) = _
      rw [sortAlerts_filter_orderedInsert p x hx, ih]
      simp [List.filter_cons, hx, sortAlerts]
    · show sortAlerts ((orderedInsert x (sortAlerts m)).filter p) = _
      rw [filter_orderedInsert_neg p x (by simpa using hx), ih]
      simp [List.filter_cons, hx]

/-! ### Permutation and order facts about sortAlerts -/

lemma orderedInsert_perm (a : Alert) (l : List Alert) :
    (orderedInsert a l).Perm (a :: l) := by
  induction l with
  | nil => rfl
  | cons b l ih =>
    by_cases hab : jsCompare a b ≤ 0
    · simp [orderedInsert, if_pos hab]
    · simp only [orderedInsert, if_neg hab]
      exact (ih.cons b).trans (List.Perm.swap a b l)

lemma sortAlerts_perm (l : List Alert) : (sortAlerts l).Perm l := by
  induction l with
  | nil => rfl
  | cons a l ih =>
    exact (orderedInsert_perm a (sortAlerts l)).trans (ih.cons a)

lemma chain'_orderedInsert (x : Alert) (l : List Alert)
    (h : l.Chain' fun a b => jsCompare a b ≤ 0) :
    (orderedInsert x l).Chain' fun a b => jsCompare a b ≤ 0 := by
  induction l with
  | nil => simp [orderedInsert]
  | cons b l ih =>
    by_cases hxb : jsCompare x b ≤ 0
    · simp only [orderedInsert, if_pos hxb]
      exact h.cons hxb
    · have hbx : jsCompare b x ≤ 0 := by
        rw [jsCompare_swap]; omega
      simp only [orderedInsert, if_neg hxb]
      have htail := h.tail
      have hh := ih htail
      cases l with
      | nil => exact List.chain'_pair.mpr hbx
      | cons c l =>
        by_cases hxc : jsCompare x c ≤ 0
        · simp only [orderedInsert, if_pos hxc] at hh ⊢
          exact hh.cons hbx
        · simp only [orderedInsert, if_neg hxc] at hh ⊢
          have hbc : jsCompare b c ≤ 0 := List.chain'_cons.mp h |>.1
          exact hh.cons hbc

/-- Every output of the sort is adjacently ordered by the comparator. -/
lemma chain'_sortAlerts (l : List Alert) :
    (sortAlerts l).Chain' fun a b => jsCompare a b ≤ 0 := by
  induction l with
  | nil => simp [sortAlerts]
  | cons a l ih => exact chain'_orderedInsert a (sortAlerts l) ih

/-- Sorting a list that is already pairwise ordered returns it unchanged. -/
lemma sortAlerts_eq_of_pairwise (l : List Alert)
    (h : l.Pairwise fun a b => jsCompare a b ≤ 0) : sortAlerts l = l := by
  induction l with
  | nil => rfl
  | cons a l ih =>
    have htail := (List.pairwise_cons.mp h).2
    show orderedInsert a (sortAlerts l) = a :: l
    rw [ih htail]
    cases l with
    | nil => rfl
    | cons b l =>
      have hab : jsCompare a b ≤ 0 :=
        (List.pairwise_cons.mp h).1 b (by simp)
      simp [orderedInsert, if_pos hab]

/-! ### Strict descending order from parsable, distinct ids -/

lemma exists_num_of_ne_nan {a : Alert} (h : jsParseInt a.fileId ≠ JSNum.nan) :
    ∃ v : Int, jsParseInt a.fileId = JSNum.num v := by
  cases h2 : jsParseInt a.fileId
  · exact ⟨_, rfl⟩
  · exact absurd h2 h

lemma keyOf_eq {a : Alert} {v : Int} (h : jsParseInt a.fileId = JSNum.num v) :
    keyOf a = v := by
  simp [keyOf, h]

lemma chain'_strict (l : List Alert) :
    (l.Chain' fun a b => jsCompare a b ≤ 0) →
    (∀ a ∈ l, jsParseInt a.fileId ≠ JSNum.nan) →
    (l.map keyOf).Nodup →
    l.Chain' fun a b => keyOf b < keyOf a := by
  induction l with
  | nil => intro _ _ _; exact List.chain'_nil
  | cons a t ih =>
    intro hc hp hnd
    cases t with
    | nil => simp
    | cons b t2 =>
      have hab : jsCompare a b ≤ 0 := (List.chain'_cons.mp hc).1
      obtain ⟨va, hva⟩ := exists_num_of_ne_nan (hp a (by simp))
      obtain ⟨vb, hvb⟩ := exists_num_of_ne_nan (hp b (by simp))
      have hcompare : jsCompare a b = vb - va := by
        simp [jsCompare, hva, hvb]
      have hnd' : (keyOf a :: (b :: t2).map keyOf).Nodup := by
        rw [← List.map_cons]
        exact hnd
      have hsplit := List.nodup_cons.mp hnd'
      have hne : keyOf a ≠ keyOf b := by
        intro he
        exact hsplit.1 (by rw [he]; simp)
      refine List.chain'_cons.mpr ⟨?_, ?_⟩
      · rw [keyOf_eq hva, keyOf_eq hvb]
        rw [keyOf_eq hva, keyOf_eq hvb] at hne
        omega
      · exact ih hc.tail (fun x hx => hp x (by simp [hx])) hsplit.2

lemma chain'_strict_pairwise (l : List Alert)
    (h : l.Chain' fun a b => keyOf b < keyOf a) :
    l.Pairwise fun a b => keyOf b < keyOf a := by
  haveI : IsTrans Alert (fun a b => keyOf b < keyOf a) :=
    ⟨fun _ _ _ h1 h2 => lt_trans h2 h1⟩
  exact List.chain'_iff_pairwise.mp h

/-- The sort of a list of alerts with parsable, pairwise distinct integer
ids is strictly descending in those ids. -/
lemma sortAlerts_pairwise_strict (l : List Alert)
    (hp : ∀ a ∈ l, jsParseInt a.fileId ≠ JSNum.nan)
    (hk : (l.map keyOf).Nodup) :
    (sortAlerts l).Pairwise fun a b => keyOf b < keyOf a := by
  have hperm := sortAlerts_perm l
  apply chain'_strict_pairwise
  apply chain'_strict _ (chain'_sortAlerts l)
  · intro a ha
    exact hp a (hperm.mem_iff.mp ha)
  · exact ((hperm.map keyOf).nodup_iff).mpr hk

/-! ### Uniqueness of fileIds through the merge -/

lemma contains_eq_true_iff (l : List String) (x : String) :
    l.contains x = true ↔ x ∈ l := by
  simp [List.contains, List.elem_iff]

/-- The merge of a page with internally distinct fileIds into a collection
with distinct fileIds keeps all fileIds distinct. -/
lemma mergeAlerts_nodup (prev data : List Alert)
    (hprev : (prev.map fun a => a.fileId).Nodup)
    (hdata : (data.map fun a => a.fileId).Nodup) :
    ((mergeAlerts prev data).map fun a => a.fileId).Nodup := by
  unfold mergeAlerts
  have hperm := (sortAlerts_perm
    (prev ++ data.filter fun a => !((prev.map fun x => x.fileId).contains a.fileId))).map
    (fun a => a.fileId)
  rw [hperm.nodup_iff, List.map_append, List.nodup_append]
  refine ⟨hprev, ?_, ?_⟩
  · exact List.Nodup.sublist ((List.filter_sublist data).map _) hdata
  · intro x hx1 hx2
    obtain ⟨b, hb, rfl⟩ := List.mem_map.mp hx2
    have hbK := List.mem_filter.mp hb
    have hnc : ((prev.map fun x => x.fileId).contains b.fileId) = false := by
      have := hbK.2
      simpa using this
    rw [← contains_eq_true_iff (prev.map fun x => x.fileId) b.fileId] at hx1
    rw [hnc] at hx1
    exact Bool.false_ne_true hx1

lemma fetch_step_nodup (t : ViewerState) (d : List Alert)
    (ht : (t.alerts.map fun a => a.fileId).Nodup)
    (hd : (d.map fun a => a.fileId).Nodup) :
    ((fetchAlertsComplete t (.success d)).alerts.map fun a => a.fileId).Nodup := by
  unfold fetchAlertsComplete
  by_cases h : 0 < d.length
  · simp only [if_pos h]
    exact mergeAlerts_nodup t.alerts d ht hd
  · simp only [if_neg h]
    exact ht

/-- C1 (amended): across any sequence of successful page merges starting
from the empty collection, the collection holds each fileId at most once,
provided each single page holds each fileId at most once; overlap between
a page and previously merged records is removed by the dedup filter. -/
theorem dedup_invariant_amended (s : ViewerState) (pages : List (List Alert))
    (h0 : s.alerts = [])
    (hpages : ∀ p ∈ pages, (p.map fun a => a.fileId).Nodup) :
    ((runFetches s pages).alerts.map fun a => a.fileId).Nodup := by
  have key : ∀ (ps : List (List Alert)) (t : ViewerState),
      (t.alerts.map fun a => a.fileId).Nodup →
      (∀ p ∈ ps, (p.map fun a => a.fileId).Nodup) →
      ((runFetches t ps).alerts.map fun a => a.fileId).Nodup := by
    intro ps
    induction ps with
    | nil => intro t ht _; exact ht
    | cons d ds ih =>
      intro t ht hp
      exact ih (fetchAlertsComplete t (.success d))
        (fetch_step_nodup t d ht (hp d (by simp)))
        (fun p hp2 => hp p (List.mem_cons_of_mem d hp2))
  exact key pages s (by rw [h0]; simp) hpages

/-- C1 counterexample: one fetched page carrying the same fileId twice is
merged into two copies, because the dedup set is built from the previous
collection only, so the claim fails as stated for arbitrary pages. -/
theorem dedup_invariant_counterexample :
    ¬ ((runFetches state0 [[mkAlert "5", mkAlert "5"]]).alerts.map fun a => a.fileId).Nodup := by
  decide

theorem dedup_invariant_amended_witness :
    ((runFetches state0
        [[mkAlert "3", mkAlert "1", mkAlert "2"],
         [mkAlert "5", mkAlert "3", mkAlert "4"]]).alerts.map fun a => a.fileId).Nodup :=
  dedup_invariant_amended state0 _ rfl (by decide)

/-- C2 (amended): when every fileId in the collection and the page parses
to an integer and those integers are pairwise distinct, the collection is
strictly descending in the integer ids after a successful non-empty merge
and after a successful resolve removal. -/
theorem order_invariant_amended (s : ViewerState) (data : List Alert) (fid : String)
    (hk : s.apiKey.isSome = true)
    (hp : ∀ a ∈ s.alerts ++ data, jsParseInt a.fileId ≠ JSNum.nan)
    (hnd : ((s.alerts ++ data).map keyOf).Nodup)
    (hd : 0 < data.length) :
    ((fetchAlertsComplete s (.success data)).alerts.Pairwise fun a b => keyOf b < keyOf a) ∧
    ((resolveAlert s fid .success).alerts.Pairwise fun a b => keyOf b < keyOf a) := by
  constructor
  · simp only [fetchAlertsComplete, if_pos hd]
    unfold mergeAlerts
    apply sortAlerts_pairwise_strict
    · intro a ha
      apply hp
      rcases List.mem_append.mp ha with h | h
      · exact List.mem_append.mpr (Or.inl h)
      · exact List.mem_append.mpr (Or.inr (List.mem_filter.mp h).1)
    · have hsub : List.Sublist
          (s.alerts ++ data.filter fun a =>
            !((s.alerts.map fun x => x.fileId).contains a.fileId))
          (s.alerts ++ data) :=
        (List.filter_sublist data).append_left s.alerts
      exact List.Nodup.sublist (hsub.map keyOf) hnd
  · obtain ⟨k, hkey⟩ := Option.isSome_iff_exists.mp hk
    have hres : resolveAlert s fid .success = { s with alerts := removeAlerts s.alerts fid } := by
      unfold resolveAlert
      rw [hkey]
      rfl
    rw [hres]
    show (removeAlerts s.alerts fid).Pairwise fun a b => keyOf b < keyOf a
    unfold removeAlerts
    apply sortAlerts_pairwise_strict
    · intro a ha
      exact hp a (List.mem_append.mpr (Or.inl (List.mem_filter.mp ha).1))
    · have hsub : List.Sublist (s.alerts.filter fun a => a.fileId != fid) (s.alerts ++ data) :=
        (List.filter_sublist s.alerts).trans (List.sublist_append_left _ _)
      exact List.Nodup.sublist (hsub.map keyOf) hnd

/-- C2 counterexample: the fileIds 7 and 07 are different strings, so both
survive the dedup filter, yet they parse to the same integer; after the
merge the collection is not strictly descending in the integer ids. -/
theorem order_invariant_counterexample :
    ¬ ((fetchAlertsComplete state0
        (.success [mkAlert "7", mkAlert "07"])).alerts.Pairwise
          fun a b => keyOf b < keyOf a) := by
  intro h
  have halerts : (fetchAlertsComplete state0
      (.success [mkAlert "7", mkAlert "07"])).alerts = [mkAlert "7", mkAlert "07"] := by
    decide
  rw [halerts] at h
  have h2 := (List.pairwise_cons.mp h).1 (mkAlert "07") (by simp)
  exact absurd h2 (by decide)

theorem order_invariant_amended_witness :
    ((fetchAlertsComplete state0
        (.success [mkAlert "3", mkAlert "1", mkAlert "2"])).alerts.Pairwise
          fun a b => keyOf b < keyOf a) ∧
    ((resolveAlert state0 "3" .success).alerts.Pairwise fun a b => keyOf b < keyOf a) :=
  order_invariant_amended state0 [mkAlert "3", mkAlert "1", mkAlert "2"] "3"
    rfl (by decide) (by decide) (by decide)

/-! ### The cutoff computation -/

lemma foldl_jsMax_num (xs : List JSNum) :
    ∀ a : Int, (∀ x ∈ xs, x ≠ JSNum.nan) →
      ∃ M : Int, xs.foldl jsMax (JSNum.num a) = JSNum.num M ∧ a ≤ M ∧
        (M = a ∨ JSNum.num M ∈ xs) ∧
        (∀ v : Int, JSNum.num v ∈ xs → v ≤ M) := by
  induction xs with
  | nil =>
    intro a _
    exact ⟨a, rfl, le_refl a, Or.inl rfl, by simp⟩
  | cons x xs ih =>
    intro a hx
    obtain ⟨vx, hvx⟩ : ∃ v, x = JSNum.num v := by
      cases hx2 : x
      · exact ⟨_, rfl⟩
      · exact absurd hx2 (hx x (by simp))
    subst hvx
    obtain ⟨M, hM, hle, hmem, hub⟩ := ih (max a vx) (fun y hy => hx y (by simp [hy]))
    refine ⟨M, ?_, ?_, ?_, ?_⟩
    · show xs.foldl jsMax (jsMax (JSNum.num a) (JSNum.num vx)) = JSNum.num M
      exact hM
    · exact le_trans (le_max_left a vx) hle
    · rcases hmem with h | h
      · rcases max_choice a vx with he | he
        · exact Or.inl (by omega)
        · refine Or.inr ?_
          have : M = vx := by omega
          rw [this]
          simp
      · exact Or.inr (by simp [h])
    · intro v hv
      rcases List.mem_cons.mp hv with h | h
      · have hvvx : v = vx := by
          cases h
          rfl
        rw [hvvx]
        exact le_trans (le_max_right a vx) hle
      · exact hub v h

/-- Math.max over a non-empty list of genuine numbers attains its
maximum in the list. -/
lemma jsMaxList_spec (xs : List JSNum) (hne : xs ≠ [])
    (hx : ∀ x ∈ xs, x ≠ JSNum.nan) :
    ∃ M : Int, jsMaxList xs = JSNum.num M ∧ JSNum.num M ∈ xs ∧
      ∀ v : Int, JSNum.num v ∈ xs → v ≤ M := by
  cases xs with
  | nil => exact absurd rfl hne
  | cons x xs2 =>
    obtain ⟨vx, hvx⟩ : ∃ v, x = JSNum.num v := by
      cases hx2 : x
      · exact ⟨_, rfl⟩
      · exact absurd hx2 (hx x (by simp))
    subst hvx
    obtain ⟨M, hM, hle, hmem, hub⟩ :=
      foldl_jsMax_num xs2 vx (fun y hy => hx y (by simp [hy]))
    refine ⟨M, hM, ?_, ?_⟩
    · rcases hmem with h | h
      · rw [h]
        simp
      · simp [h]
    · intro v hv
      rcases List.mem_cons.mp hv with h | h
      · have hvvx : v = vx := by
          cases h
          rfl
        rw [hvvx]
        exact hle
      · exact hub v h

/-- C3: on a successful fetch of a non-empty page whose records all carry
integer ids strictly above the requested cutoff (the server contract), the
new cutoff is the textual form of the page maximum id, computed pre-filter,
and strictly exceeds the prior cutoff; an empty page leaves the whole state
except the guard unchanged, and a failure leaves the cutoff unchanged. -/
theorem cursor_monotonicity (s : ViewerState) (data : List Alert) (c : Int)
    (_hc : jsParseInt s.lastCutoffId = JSNum.num c)
    (hne : data ≠ [])
    (hgt : ∀ a ∈ data, jsParseInt a.fileId ≠ JSNum.nan ∧ c < keyOf a) :
    (∃ M : Int,
      jsMaxList (data.map fun a => jsParseInt a.fileId) = JSNum.num M ∧
      (fetchAlertsComplete s (.success data)).lastCutoffId = toString M ∧
      (∃ a ∈ data, jsParseInt a.fileId = JSNum.num M) ∧
      (∀ a ∈ data, keyOf a ≤ M) ∧
      c < M) ∧
    (∀ t : ViewerState, fetchAlertsComplete t (.success []) = { t with loading := false }) ∧
    (∀ t : ViewerState, (fetchAlertsComplete t .failure).lastCutoffId = t.lastCutoffId) := by
  have hmapne : data.map (fun a => jsParseInt a.fileId) ≠ [] := by
    intro hmap
    exact hne (List.map_eq_nil_iff.mp hmap)
  have hmapnum : ∀ x ∈ data.map (fun a => jsParseInt a.fileId), x ≠ JSNum.nan := by
    intro x hxm
    obtain ⟨a, ha, rfl⟩ := List.mem_map.mp hxm
    exact (hgt a ha).1
  obtain ⟨M, hM, hMmem, hMub⟩ := jsMaxList_spec _ hmapne hmapnum
  have hd : 0 < data.length := by
    cases data with
    | nil => exact absurd rfl hne
    | cons a t => simp
  refine ⟨⟨M, hM, ?_, ?_, ?_, ?_⟩, fun t => rfl, fun t => rfl⟩
  · simp only [fetchAlertsComplete, if_pos hd]
    rw [hM]
    rfl
  · obtain ⟨a, ha, haM⟩ := List.mem_map.mp hMmem
    exact ⟨a, ha, haM⟩
  · intro a ha
    obtain ⟨v, hv⟩ := exists_num_of_ne_nan (hgt a ha).1
    rw [keyOf_eq hv]
    exact hMub v (List.mem_map.mpr ⟨a, ha, hv⟩)
  · obtain ⟨a, ha, haM⟩ := List.mem_map.mp hMmem
    have := (hgt a ha).2
    rw [keyOf_eq haM] at this
    exact this

theorem cursor_monotonicity_witness :
    (∃ M : Int,
      jsMaxList ([mkAlert "3", mkAlert "1", mkAlert "2"].map fun a => jsParseInt a.fileId)
        = JSNum.num M ∧
      (fetchAlertsComplete state0
        (.success [mkAlert "3", mkAlert "1", mkAlert "2"])).lastCutoffId = toString M ∧
      (∃ a ∈ [mkAlert "3", mkAlert "1", mkAlert "2"], jsParseInt a.fileId = JSNum.num M) ∧
      (∀ a ∈ [mkAlert "3", mkAlert "1", mkAlert "2"], keyOf a ≤ M) ∧
      (0 : Int) < M) ∧
    (∀ t : ViewerState, fetchAlertsComplete t (.success []) = { t with loading := false }) ∧
    (∀ t : ViewerState, (fetchAlertsComplete t .failure).lastCutoffId = t.lastCutoffId) :=
  cursor_monotonicity state0 [mkAlert "3", mkAlert "1", mkAlert "2"] 0
    (by decide) (by decide) (by decide)

/-- C4: a loadMore trigger while a fetch is pending passes neither the
guard nor the network: the state is returned unchanged and no request is
issued, so the redundant trigger is dropped rather than queued. -/
theorem single_flight_guard (s : ViewerState) (h : s.loading = true) :
    fetchAlertsStart s = (s, false) := by
  unfold fetchAlertsStart
  rw [h]
  rfl

theorem single_flight_guard_witness :
    fetchAlertsStart { state0 with loading := true } =
      ({ state0 with loading := true }, false) :=
  single_flight_guard { state0 with loading := true } rfl

/-- C5: a failing fetch leaves the collection and the cutoff untouched,
publishes the fetch error message and releases the loading guard, which is
in fact released on every completion path; a failing resolve issued with a
credential present changes nothing but the published error, and neither
path schedules any retry. -/
theorem failure_atomicity (s : ViewerState) (fid : String) (k : String)
    (hk : s.apiKey = some k) :
    fetchAlertsComplete s .failure =
      { s with error := some fetchFailureMessage, loading := false } ∧
    (∀ o : FetchOutcome, (fetchAlertsComplete s o).loading = false) ∧
    resolveAlert s fid .failure = { s with error := some resolveFailureMessage } := by
  refine ⟨rfl, ?_, ?_⟩
  · intro o
    cases o with
    | failure => rfl
    | success data =>
      show (if 0 < data.length then
          { s with
            alerts := mergeAlerts s.alerts data,
            lastCutoffId := jsNumToString (jsMaxList (data.map fun (a : Alert) => jsParseInt a.fileId)),
            loading := false }
        else { s with loading := false }).loading = false
      by_cases h : 0 < data.length
      · rw [if_pos h]
      · rw [if_neg h]
  · unfold resolveAlert
    rw [hk]
    rfl

theorem failure_atomicity_witness :
    fetchAlertsComplete state0 .failure =
      { state0 with error := some fetchFailureMessage, loading := false } ∧
    (∀ o : FetchOutcome, (fetchAlertsComplete state0 o).loading = false) ∧
    resolveAlert state0 "1" .failure =
      { state0 with error := some resolveFailureMessage } :=
  failure_atomicity state0 "1" "key" rfl

/-! ### Resolve postcondition -/

/-- C6 counterexample: in a state reached by merging a page whose middle
record has the unparsable fileId x, successfully resolving x re-sorts the
two survivors into the opposite order, so the result is not the prior
collection with the resolved alert removed. -/
theorem resolve_postcondition_counterexample :
    (resolveAlert (runFetches state0 [[mkAlert "5", mkAlert "x", mkAlert "9"]])
        "x" .success).alerts ≠
      (runFetches state0 [[mkAlert "5", mkAlert "x", mkAlert "9"]]).alerts.filter
        (fun a => a.fileId != "x") := by
  decide

/-- C6 (amended): when the collection is pairwise ordered under the sort
comparator, which holds whenever all its fileIds parse as integers, a
successful resolve removes exactly the alerts carrying the given fileId,
and resolving an id that is absent leaves the whole state unchanged and
raises no error. -/
theorem resolve_postcondition_amended (s : ViewerState) (fid : String) (k : String)
    (hk : s.apiKey = some k)
    (hs : s.alerts.Pairwise fun a b => jsCompare a b ≤ 0) :
    (resolveAlert s fid .success).alerts = s.alerts.filter (fun a => a.fileId != fid) ∧
    (fid ∉ s.alerts.map (fun a => a.fileId) → resolveAlert s fid .success = s) := by
  have hres : resolveAlert s fid .success = { s with alerts := removeAlerts s.alerts fid } := by
    unfold resolveAlert
    rw [hk]
    rfl
  have hfix : removeAlerts s.alerts fid = s.alerts.filter (fun a => a.fileId != fid) := by
    unfold removeAlerts
    exact sortAlerts_eq_of_pairwise _ (List.Pairwise.sublist (List.filter_sublist _) hs)
  refine ⟨by rw [hres, hfix], ?_⟩
  intro habs
  have hself : s.alerts.filter (fun a => a.fileId != fid) = s.alerts := by
    apply List.filter_eq_self.mpr
    intro a ha
    have hne : a.fileId ≠ fid := by
      intro he
      exact habs (by rw [← he]; exact List.mem_map.mpr ⟨a, ha, rfl⟩)
    simpa [bne_iff_ne] using hne
  rw [hres, hfix, hself]

theorem resolve_postcondition_amended_witness :
    ((resolveAlert { state0 with alerts := [mkAlert "3", mkAlert "2", mkAlert "1"] }
        "2" .success).alerts =
      [mkAlert "3", mkAlert "2", mkAlert "1"].filter (fun a => a.fileId != "2")) ∧
    ("2" ∉ [mkAlert "3", mkAlert "2", mkAlert "1"].map (fun a => a.fileId) →
      resolveAlert { state0 with alerts := [mkAlert "3", mkAlert "2", mkAlert "1"] }
        "2" .success = { state0 with alerts := [mkAlert "3", mkAlert "2", mkAlert "1"] }) :=
  resolve_postcondition_amended
    { state0 with alerts := [mkAlert "3", mkAlert "2", mkAlert "1"] } "2" "key"
    rfl (by decide)

/-! ### Commutativity of merge completion and resolve completion -/

lemma contains_congr {l l' : List String} (x : String) (h : x ∈ l ↔ x ∈ l') :
    l.contains x = l'.contains x := by
  by_cases hx : x ∈ l
  · rw [(contains_eq_true_iff l x).mpr hx, (contains_eq_true_iff l' x).mpr (h.mp hx)]
  · have h1 : l.contains x = false := by
      cases hc : l.contains x
      · rfl
      · exact absurd ((contains_eq_true_iff l x).mp hc) hx
    have h2 : l'.contains x = false := by
      cases hc : l'.contains x
      · rfl
      · exact absurd (h.mpr ((contains_eq_true_iff l' x).mp hc)) hx
    rw [h1, h2]

lemma mem_map_fileId_filter_iff (prev : List Alert) (fid x : String) (hx : x ≠ fid) :
    (x ∈ (prev.filter fun a => a.fileId != fid).map fun a => a.fileId) ↔
      x ∈ prev.map fun a => a.fileId := by
  constructor
  · intro h
    obtain ⟨b, hb, rfl⟩ := List.mem_map.mp h
    exact List.mem_map.mpr ⟨b, (List.mem_filter.mp hb).1, rfl⟩
  · intro h
    obtain ⟨b, hb, hbx⟩ := List.mem_map.mp h
    refine List.mem_map.mpr ⟨b, List.mem_filter.mpr ⟨hb, ?_⟩, hbx⟩
    rw [hbx]
    simpa [bne_iff_ne] using hx

/-- The removal-by-id and the dedup merge commute whenever the resolved id
does not occur in the incoming page. -/
lemma removeAlerts_mergeAlerts_comm (prev data : List Alert) (fid : String)
    (h : fid ∉ data.map fun a => a.fileId) :
    removeAlerts (mergeAlerts prev data) fid = mergeAlerts (removeAlerts prev fid) data := by
  have hdata : ∀ a ∈ data, a.fileId ≠ fid := by
    intro a ha he
    exact h (by rw [← he]; exact List.mem_map.mpr ⟨a, ha, rfl⟩)
  unfold removeAlerts mergeAlerts
  rw [sortAlerts_filter_sortAlerts, List.filter_append]
  have hK : (data.filter fun a => !((prev.map fun x => x.fileId).contains a.fileId)).filter
      (fun a => a.fileId != fid)
      = data.filter fun a => !((prev.map fun x => x.fileId).contains a.fileId) := by
    apply List.filter_eq_self.mpr
    intro a ha
    simpa [bne_iff_ne] using hdata a (List.mem_filter.mp ha).1
  rw [hK, sortAlerts_sorted_append]
  have hids : (data.filter fun a =>
        !(((sortAlerts (prev.filter fun a => a.fileId != fid)).map fun x => x.fileId).contains
          a.fileId))
      = data.filter fun a => !((prev.map fun x => x.fileId).contains a.fileId) := by
    apply List.filter_congr
    intro a ha
    have hmem : (a.fileId ∈ (sortAlerts (prev.filter fun a => a.fileId != fid)).map
          fun x => x.fileId) ↔ a.fileId ∈ prev.map fun x => x.fileId := by
      rw [((sortAlerts_perm (prev.filter fun a => a.fileId != fid)).map
        (fun x => x.fileId)).mem_iff]
      exact mem_map_fileId_filter_iff prev fid a.fileId (hdata a ha)
    rw [contains_congr a.fileId hmem]
  rw [hids]

/-- C7: completing a merge for a fetched page and completing a resolve for
an id that does not occur in that page commute: both interleavings
materialize the same collection. -/
theorem merge_resolve_commute (s : ViewerState) (data : List Alert) (fid : String)
    (h : fid ∉ data.map fun a => a.fileId) :
    (resolveAlert (fetchAlertsComplete s (.success data)) fid .success).alerts =
      (fetchAlertsComplete (resolveAlert s fid .success) (.success data)).alerts := by
  by_cases hd : 0 < data.length
  · cases hkey : s.apiKey with
    | none =>
      have h1 : fetchAlertsComplete s (.success data) =
          { s with
            alerts := mergeAlerts s.alerts data,
            lastCutoffId := jsNumToString (jsMaxList (data.map fun a => jsParseInt a.fileId)),
            loading := false } := by
        simp only [fetchAlertsComplete, if_pos hd]
      have h2 : ∀ t : ViewerState, t.apiKey = none → resolveAlert t fid .success = t := by
        intro t ht
        unfold resolveAlert
        rw [ht]
        rfl
      rw [h1, h2 _ (by rw [← hkey]), h2 s hkey]
      simp only [fetchAlertsComplete, if_pos hd]
    | some k =>
      have h2 : ∀ t : ViewerState, t.apiKey = some k →
          resolveAlert t fid .success = { t with alerts := removeAlerts t.alerts fid } := by
        intro t ht
        unfold resolveAlert
        rw [ht]
        rfl
      rw [h2 _ (by simp only [fetchAlertsComplete, if_pos hd]; exact hkey), h2 s hkey]
      simp only [fetchAlertsComplete, if_pos hd]
      exact removeAlerts_mergeAlerts_comm s.alerts data fid h
  · have h1 : ∀ t : ViewerState, fetchAlertsComplete t (.success data) =
        { t with loading := false } := by
      intro t
      simp only [fetchAlertsComplete, if_neg hd]
    cases hkey : s.apiKey with
    | none =>
      have h2 : ∀ t : ViewerState, t.apiKey = none → resolveAlert t fid .success = t := by
        intro t ht
        unfold resolveAlert
        rw [ht]
        rfl
      rw [h1, h2 _ (by rw [← hkey]), h2 s hkey, h1]
    | some k =>
      have h2 : ∀ t : ViewerState, t.apiKey = some k →
          resolveAlert t fid .success = { t with alerts := removeAlerts t.alerts fid } := by
        intro t ht
        unfold resolveAlert
        rw [ht]
        rfl
      rw [h1, h2 _ (by rw [← hkey]), h2 s hkey, h1]

theorem merge_resolve_commute_witness :
    (resolveAlert (fetchAlertsComplete state0 (.success [mkAlert "2"])) "1" .success).alerts =
      (fetchAlertsComplete (resolveAlert state0 "1" .success) (.success [mkAlert "2"])).alerts :=
  merge_resolve_commute state0 [mkAlert "2"] "1" (by decide)

/-! ### Malformed payloads -/

lemma foldl_jsMax_nan_init (xs : List JSNum) : xs.foldl jsMax JSNum.nan = JSNum.nan := by
  induction xs with
  | nil => rfl
  | cons x xs ih =>
    show xs.foldl jsMax (jsMax JSNum.nan x) = JSNum.nan
    have hx : jsMax JSNum.nan x = JSNum.nan := by
      cases x <;> rfl
    rw [hx]
    exact ih

lemma foldl_jsMax_nan_mem (xs : List JSNum) (h : JSNum.nan ∈ xs) :
    ∀ a : JSNum, xs.foldl jsMax a = JSNum.nan := by
  induction xs with
  | nil => simp at h
  | cons x xs ih =>
    intro a
    show xs.foldl jsMax (jsMax a x) = JSNum.nan
    rcases List.mem_cons.mp h with h1 | h2
    · have hx : jsMax a x = JSNum.nan := by
        rw [← h1]
        cases a <;> rfl
      rw [hx]
      exact foldl_jsMax_nan_init xs
    · exact ih h2 (jsMax a x)

/-- Math.max over a list containing a NaN is NaN. -/
lemma jsMaxList_nan (xs : List JSNum) (h : JSNum.nan ∈ xs) : jsMaxList xs = JSNum.nan := by
  cases xs with
  | nil => simp at h
  | cons x xs2 =>
    show xs2.foldl jsMax x = JSNum.nan
    rcases List.mem_cons.mp h with h1 | h2
    · rw [← h1]
      exact foldl_jsMax_nan_init xs2
    · exact foldl_jsMax_nan_mem xs2 h2 x

/-- C8 counterexample: the claim requires a page holding an unparsable
fileId to abort like a transport error, but the code merges the page, sets
the cutoff to the string NaN and surfaces no error. -/
theorem malformed_payload_counterexample :
    ((fetchAlertsComplete { state0 with loading := true }
        (.success [mkAlert "oops"])).alerts ≠ state0.alerts) ∧
    (fetchAlertsComplete { state0 with loading := true }
        (.success [mkAlert "oops"])).lastCutoffId = "NaN" ∧
    (fetchAlertsComplete { state0 with loading := true }
        (.success [mkAlert "oops"])).error = none := by
  decide

/-- C8 (amended): a response whose JSON shape breaks (a missing data field
makes the map call throw) lands in the catch block and aborts atomically:
the collection and the cutoff are unchanged, the error is published and
the guard is released.  A well-shaped page with an unparsable fileId,
however, is NOT rejected: it is merged normally, no error is surfaced, and
the cutoff advances to the string NaN. -/
theorem malformed_payload_amended (s : ViewerState) (data : List Alert) (a : Alert)
    (ha : a ∈ data) (hbad : jsParseInt a.fileId = JSNum.nan) :
    (fetchAlertsComplete s (.success data)).lastCutoffId = "NaN" ∧
    (fetchAlertsComplete s (.success data)).alerts = mergeAlerts s.alerts data ∧
    (fetchAlertsComplete s (.success data)).error = s.error ∧
    fetchAlertsComplete s .failure =
      { s with error := some fetchFailureMessage, loading := false } := by
  have hd : 0 < data.length := List.length_pos_of_mem ha
  have hnan : JSNum.nan ∈ data.map fun x => jsParseInt x.fileId := by
    rw [← hbad]
    exact List.mem_map.mpr ⟨a, ha, rfl⟩
  refine ⟨?_, ?_, ?_, rfl⟩
  · simp only [fetchAlertsComplete, if_pos hd]
    rw [jsMaxList_nan _ hnan]
    rfl
  · simp only [fetchAlertsComplete, if_pos hd]
  · simp only [fetchAlertsComplete, if_pos hd]

theorem malformed_payload_amended_witness :
    (fetchAlertsComplete { state0 with loading := true }
        (.success [mkAlert "oops"])).lastCutoffId = "NaN" ∧
    (fetchAlertsComplete { state0 with loading := true }
        (.success [mkAlert "oops"])).alerts
      = mergeAlerts ({ state0 with loading := true }).alerts [mkAlert "oops"] ∧
    (fetchAlertsComplete { state0 with loading := true }
        (.success [mkAlert "oops"])).error = ({ state0 with loading := true }).error ∧
    fetchAlertsComplete { state0 with loading := true } .failure =
      { { state0 with loading := true } with
          error := some fetchFailureMessage, loading := false } :=
  malformed_payload_amended { state0 with loading := true } [mkAlert "oops"]
    (mkAlert "oops") (by decide) (by decide)

/-! ### Counter poll isolation -/

lemma counterTick_success_eq (s : ViewerState) (k : String) (hk : s.apiKey = some k)
    (rows : List CounterRow) :
    counterTick s (.success rows) =
      match (rows.filter fun r => r.rowKey == "unique_counter").head? with
      | some row => { s with counter := row.count }
      | none => s := by
  unfold counterTick
  rw [hk]
  rfl

/-- C9: with a credential present, a counter tick that fails in transport,
or whose payload has no unique_counter row, leaves the state untouched
(in particular the published counter and the error state), and the next
successful tick still updates the published counter; the fixed 2000 ms
schedule itself lives outside this state model. -/
theorem counter_poll_isolation (s : ViewerState) (k : String) (hk : s.apiKey = some k)
    (rows bad : List CounterRow) (row : CounterRow)
    (hrow : (rows.filter fun r => r.rowKey == "unique_counter").head? = some row)
    (hbad : (bad.filter fun r => r.rowKey == "unique_counter").head? = none) :
    counterTick s .failure = s ∧
    counterTick s (.success bad) = s ∧
    counterTick (counterTick s .failure) (.success rows) = { s with counter := row.count } := by
  have hfail : counterTick s .failure = s := by
    unfold counterTick
    rw [hk]
    rfl
  refine ⟨hfail, ?_, ?_⟩
  · rw [counterTick_success_eq s k hk bad, hbad]
  · rw [hfail, counterTick_success_eq s k hk rows, hrow]

theorem counter_poll_isolation_witness :
    counterTick state0 .failure = state0 ∧
    counterTick state0 (.success [{ rowKey := "other", count := 3 }]) = state0 ∧
    counterTick (counterTick state0 .failure)
        (.success [{ rowKey := "unique_counter", count := 5 }]) =
      { state0 with counter := 5 } :=
  counter_poll_isolation state0 "key" rfl
    [{ rowKey := "unique_counter", count := 5 }]
    [{ rowKey := "other", count := 3 }]
    { rowKey := "unique_counter", count := 5 } (by decide) (by decide)

/-! ### A new fetch clears the published error -/

/-- C10: a fetch that passes the guard clears the published error before
any request is issued, the error stays clear through a success that
returns an empty page, and a successful resolve leaves the published
error untouched. -/
theorem fetch_clears_error (s : ViewerState)
    (h1 : s.loading = false) (h2 : s.apiKey.isNone = false) :
    (fetchAlertsStart s).1.error = none ∧
    (fetchAlertsStart s).2 = true ∧
    (fetchAlertsComplete (fetchAlertsStart s).1 (.success [])).error = none ∧
    (∀ (t : ViewerState) (k fid : String), t.apiKey = some k →
      (resolveAlert t fid .success).error = t.error) := by
  have hstart : fetchAlertsStart s = ({ s with loading := true, error := none }, true) := by
    unfold fetchAlertsStart
    rw [h1, h2]
    rfl
  refine ⟨by rw [hstart], by rw [hstart], by rw [hstart]; rfl, ?_⟩
  intro t k fid ht
  unfold resolveAlert
  rw [ht]
  rfl

theorem fetch_clears_error_witness :
    (fetchAlertsStart state0).1.error = none ∧
    (fetchAlertsStart state0).2 = true ∧
    (fetchAlertsComplete (fetchAlertsStart state0).1 (.success [])).error = none ∧
    (∀ (t : ViewerState) (k fid : String), t.apiKey = some k →
      (resolveAlert t fid .success).error = t.error) :=
  fetch_clears_error state0 rfl rfl

end AlertViewer
